import Mathlib

/-!
Verification development for the cobra-lambda repository.

The wrapper package's output-capture execution wrapper (`wrapper/wrapper.go`),
the Lambda handler factory (`wrapper/lambda.go`), the local process supervisor
(`cli` package, `cmd/rpc/main.go`), and the demo Lambda handler
(`iac/go-demo/main.go`) are shallowly embedded as pure Lean functions.

Conventions of the embedding:
- OS file handles (`*os.File` values such as `os.Stdout`) are `Nat` tags; the
  process-global state (the two global streams plus the open-fd table) is the
  `Sys` structure.
- Bytes are `Nat`; Go strings that carry data are `String`, byte payloads
  written to streams are `List Nat`.
- The wrapped cobra command is a function from a context tag and an argument
  vector to its observable behavior: the ordered trace of writes it performs
  during `cmd.Execute()` and its outcome (a returned error, or a panic).
- The two pipe-drain goroutines are represented by the `merge` function: each
  drain copies its pipe's chunks into the shared buffer in pipe order, and the
  boolean schedule chooses, at each step, which drain appends its next chunk.
  Quantifying over all traces and all schedules covers every interleaving of
  writes/drains at arbitrary granularity (traces with one-byte events give
  byte granularity).
- `os.Pipe` failure is modelled by boolean oracles `pipeOk1`/`pipeOk2` with the
  error strings the failed call would return.
- The mutex acquire/release of `Execute` and the shared-state accesses between
  them are reported in an event trace (`Ev`); a separate mutex-scheduling
  relation (`Sched`) gives the semantics of `sync.Mutex` for two competing
  callers.
-/

namespace CobraLambdaModel

/-- The two redirected global channels: standard output and standard error. -/
inductive Chan where
  | out
  | err
deriving DecidableEq, Repr

/-- Where a write of the wrapped program originates: cobra's configured output
or error stream, or the raw globals `os.Stdout` / `os.Stderr`.  In
`wrapper.go`, `cmd.SetOut(nil)`/`cmd.SetErr(nil)` make cobra write through the
globals, so all four sources land in the two pipes. -/
inductive Source where
  | cobraOut
  | cobraErr
  | osStdout
  | osStderr
deriving DecidableEq, Repr

/-- The pipe a given write source is routed to during the capture window. -/
def routeChan : Source → Chan
  | .cobraOut => .out
  | .osStdout => .out
  | .cobraErr => .err
  | .osStderr => .err

/-- One write performed by the wrapped program during `cmd.Execute()`. -/
structure WriteEvent where
  src : Source
  data : List Nat
deriving DecidableEq, Repr

/-- The chunks arriving at channel `c`'s pipe, in program order. -/
def chunksOn (c : Chan) (tr : List WriteEvent) : List (List Nat) :=
  (tr.filter fun e => routeChan e.src == c).map (·.data)

/-- All bytes arriving at channel `c`'s pipe, in program order. -/
def bytesOn (c : Chan) (tr : List WriteEvent) : List Nat :=
  (chunksOn c tr).flatten

/-- Every byte the program wrote during the call, in trace order. -/
def writtenBytes (tr : List WriteEvent) : List Nat :=
  (tr.map (·.data)).flatten

/-- Chunks of channel `c` tagged with their channel, as the drain goroutine of
that channel appends them to the shared buffer. -/
def taggedChunks (c : Chan) (tr : List WriteEvent) : List (Chan × List Nat) :=
  (chunksOn c tr).map (fun d => (c, d))

/-- Interleaving of the two drain goroutines into the shared thread-safe
buffer: `true` schedules the stdout drain's next chunk, `false` the stderr
drain's.  When the schedule is exhausted the remaining chunks of the first
drain land before the remaining chunks of the second (some order must be
picked; all orders are covered because the schedule is quantified). -/
def merge : List Bool → List α → List α → List α
  | [], xs, ys => xs ++ ys
  | _ :: _, [], ys => ys
  | _ :: _, x :: xs, [] => x :: xs
  | true :: s, x :: xs, y :: ys => x :: merge s xs (y :: ys)
  | false :: s, x :: xs, y :: ys => y :: merge s (x :: xs) ys

/-- Outcome of `cmd.Execute()`: a normal return carrying the (possibly nil)
error, or a panic unwinding out of the command. -/
inductive RunOutcome where
  | ok (err : Option String)
  | panicked
deriving DecidableEq, Repr

/-- Observable behavior of one run of the wrapped cobra command: its ordered
write trace and its outcome. -/
structure CmdBehavior where
  trace : List WriteEvent
  outcome : RunOutcome
deriving DecidableEq, Repr

/-- Process-global system state: the two global stream handles and the file
descriptor table (`nextFd` is the next descriptor `os.Pipe` hands out,
`openFds` the currently open descriptors, most recent first). -/
structure Sys where
  stdout : Nat
  stderr : Nat
  nextFd : Nat
  openFds : List Nat
deriving DecidableEq, Repr

/-- Closing a file descriptor removes its first occurrence from the table. -/
def removeFd : List Nat → Nat → List Nat
  | [], _ => []
  | x :: xs, fd => if x = fd then xs else x :: removeFd xs fd

/-- Model of `f.Close()` on the fd table of `sys`. -/
def closeFd (sys : Sys) (fd : Nat) : Sys :=
  { sys with openFds := removeFd sys.openFds fd }

/-- Struct `OutputCapture` of `wrapper/wrapper.go` (field `Stdout`), holding the
captured bytes. -/
structure OutputCapture where
  Stdout : List Nat
deriving DecidableEq, Repr

/-- The `CobraLambda` struct of `wrapper/wrapper.go`: the wrapped command (as
its behavior function), the originals of the two global streams captured at
construction time, and the stored context.  The mutex has no data content; its
use is reported in the event trace of `Execute`. -/
structure CobraLambda where
  cmd : Nat → List String → CmdBehavior
  originalStdout : Nat
  originalStderr : Nat
  ctx : Nat

/-- Constructor `NewCobraLambdaCLI` (`wrapper/wrapper.go`): stores the command, the context
and the current values of `os.Stdout` / `os.Stderr`. -/
def NewCobraLambdaCLI (ctx : Nat) (cmd : Nat → List String → CmdBehavior)
    (sys : Sys) : CobraLambda :=
  { cmd := cmd, originalStdout := sys.stdout, originalStderr := sys.stderr, ctx := ctx }

/-- How `Execute` ends: a normal return of the capture (nil on the pipe-failure
paths) and the error, or a propagating panic. -/
inductive ExecResult where
  | ret (capture : Option OutputCapture) (err : Option String)
  | panicked
deriving DecidableEq, Repr

/-- Mutex/shared-state events emitted by `Execute`: `lock`/`unlock` of the
instance mutex and the shared-state accesses between them (`work 0` = pipe
creation, `work 1` = swapping the globals, `work 2` = running the command,
`work 3` = joining the drains and reading the sink, `work 4` = restoring the
globals). -/
inductive Ev where
  | lock
  | unlock
  | work (n : Nat)
deriving DecidableEq, Repr

/-- Returns `true` exactly for the non-mutex events. -/
def isWork : Ev → Bool
  | .work _ => true
  | _ => false

/-- Everything observable about one `Execute` call: the final system state, the
returned value, whether the wrapped command was run, the final content of the
shared buffer (channel-tagged chunks in arrival order), and the mutex event
trace. -/
structure ExecOut where
  sys : Sys
  result : ExecResult
  ran : Bool
  buffer : List (Chan × List Nat)
  events : List Ev

/-- Method `(*CobraLambda).Execute` of `wrapper/wrapper.go`, line by line:

1. `w.mu.Lock()` / deferred `w.mu.Unlock()` — the `lock`/`unlock` events
   bracketing everything below.
2. fresh shared buffer; `os.Pipe()` twice.  A failure of the first pipe
   returns that error at once; a failure of the second closes the first
   pipe's two ends and returns the error.  In both cases the globals were
   never touched and the command never ran.
3. deferred restore of `os.Stdout`/`os.Stderr` to the construction-time
   originals (runs even on panic).
4. globals swapped to the pipe write ends; one drain goroutine per pipe
   copies into the shared buffer (`merge` of the channel-tagged chunks under
   the drain schedule).
5. `w.cmd.Execute()` runs (`SetOut(nil)`/`SetErr(nil)`/`SetArgs(args)` mean
   the trace of `w.cmd w.ctx args` lands in the pipes).  A panic propagates:
   only the deferred restore and unlock run; the pipe fds leak.
6. on normal return: write ends closed, `wg.Wait()` joins both drains, read
   ends closed, globals restored, and the snapshot of the buffer is returned
   together with the command's error. -/
def Execute (w : CobraLambda) (args : List String) (pipeOk1 pipeOk2 : Bool)
    (pipeErr1 pipeErr2 : String) (sched : List Bool) (sys : Sys) : ExecOut :=
  if pipeOk1 = false then
    -- os.Pipe() for stdout failed: return nil, err
    { sys := sys, result := .ret none (some pipeErr1), ran := false,
      buffer := [], events := [.lock, .unlock] }
  else
    let stdoutReader := sys.nextFd
    let stdoutWriter := sys.nextFd + 1
    let sys1 : Sys := { sys with
      nextFd := sys.nextFd + 2
      openFds := stdoutReader :: stdoutWriter :: sys.openFds }
    if pipeOk2 = false then
      -- os.Pipe() for stderr failed: close stdoutWriter, stdoutReader; return nil, err
      { sys := closeFd (closeFd sys1 stdoutWriter) stdoutReader,
        result := .ret none (some pipeErr2), ran := false,
        buffer := [], events := [.lock, .work 0, .unlock] }
    else
      let stderrReader := sys1.nextFd
      let stderrWriter := sys1.nextFd + 1
      let sys2 : Sys := { sys1 with
        nextFd := sys1.nextFd + 2
        openFds := stderrReader :: stderrWriter :: sys1.openFds }
      -- defer func() { os.Stdout = w.originalStdout; os.Stderr = w.originalStderr }()
      let sys3 : Sys := { sys2 with stdout := stdoutWriter, stderr := stderrWriter }
      let b := w.cmd w.ctx args
      match b.outcome with
      | .panicked =>
        -- the deferred restore and unlock still run; nothing is returned
        { sys := { sys3 with stdout := w.originalStdout, stderr := w.originalStderr },
          result := .panicked, ran := true, buffer := [],
          events := [.lock, .work 0, .work 1, .work 2, .unlock] }
      | .ok execErr =>
        let buf := merge sched (taggedChunks .out b.trace) (taggedChunks .err b.trace)
        let sys4 := closeFd (closeFd sys3 stdoutWriter) stderrWriter
        let sys5 := closeFd (closeFd sys4 stdoutReader) stderrReader
        let sys6 : Sys := { sys5 with stdout := w.originalStdout, stderr := w.originalStderr }
        { sys := sys6,
          result := .ret (some { Stdout := (buf.map (·.2)).flatten }) execErr,
          ran := true, buffer := buf,
          events := [.lock, .work 0, .work 1, .work 2, .work 3, .work 4, .unlock] }

/-- Method `ExecuteContext` (`wrapper/wrapper.go`): sets the given context on the
command for the duration of one `Execute` call and restores the stored one
afterwards; the restoration has no further observable effect here. -/
def ExecuteContext (w : CobraLambda) (ctx : Nat) (args : List String)
    (pipeOk1 pipeOk2 : Bool) (pipeErr1 pipeErr2 : String) (sched : List Bool)
    (sys : Sys) : ExecOut :=
  Execute { w with ctx := ctx } args pipeOk1 pipeOk2 pipeErr1 pipeErr2 sched sys

/-! ### Semantics of `sync.Mutex` for two competing callers

`MuStep o t e o'` says thread `t` (one of two, tagged by a `Bool`) may perform
event `e` while the mutex owner is `o`, leaving owner `o'`: `Lock()` only
succeeds when the mutex is free, `Unlock()` releases it, and every other
operation is independent of the mutex. `Sched o xs ys zs` says the two event
lists `xs` (thread `true`) and `ys` (thread `false`) can be interleaved into
the observed schedule `zs` starting from owner `o`. -/

inductive MuStep : Option Bool → Bool → Ev → Option Bool → Prop where
  | lock {t} : MuStep none t .lock (some t)
  | unlock {t} : MuStep (some t) t .unlock none
  | work {o t n} : MuStep o t (.work n) o

inductive Sched : Option Bool → List Ev → List Ev → List (Bool × Ev) → Prop where
  | done {o} : Sched o [] [] []
  | left {o o' e xs ys zs} : MuStep o true e o' → Sched o' xs ys zs →
      Sched o (e :: xs) ys ((true, e) :: zs)
  | right {o o' e xs ys zs} : MuStep o false e o' → Sched o' xs ys zs →
      Sched o xs (e :: ys) ((false, e) :: zs)

/-! ### `wrapper/lambda.go`: the event envelope and the handler factory -/

/-- A JSON document, as `encoding/json` sees it after syntax checking. -/
inductive Json where
  | null
  | bool (b : Bool)
  | num (n : Int)
  | str (s : String)
  | arr (xs : List Json)
  | obj (fields : List (String × Json))

/-- Field lookup as `encoding/json` resolves duplicate keys: the last
occurrence of a key wins. -/
def lookupField (fields : List (String × Json)) (k : String) : Option Json :=
  match fields with
  | [] => none
  | (k', v) :: rest =>
    match lookupField rest k with
    | some v' => some v'
    | none => if k' = k then some v else none

/-- Struct `CobraLambdaEvent` of `wrapper/lambda.go`: `Args []string` with JSON
key `"args"`. -/
structure CobraLambdaEvent where
  Args : List String
deriving DecidableEq, Repr

/-- Decoding the `"args"` value into `[]string`: JSON `null` leaves the nil
slice, an array must contain only strings, anything else is a type error. -/
def decodeArgs : Json → Except String (List String)
  | .null => .ok []
  | .arr xs => xs.mapM fun j =>
      match j with
      | .str s => Except.ok s
      | _ => Except.error "json: cannot unmarshal value into args element of type string"
  | _ => .error "json: cannot unmarshal value into field args of type []string"

/-- Function `UnmarshalEvent` of `wrapper/lambda.go`: `json.Unmarshal` of the payload
into a `CobraLambdaEvent`.  The payload is `none` when it is not syntactically
valid JSON; a valid document must be `null` or an object, and an `"args"`
member (if present) must decode into `[]string`; a missing member leaves the
zero value. -/
def UnmarshalEvent : Option Json → Except String CobraLambdaEvent
  | none => .error "invalid character in JSON payload"
  | some .null => .ok { Args := [] }
  | some (.obj fields) =>
    match lookupField fields "args" with
    | none => .ok { Args := [] }
    | some v => (decodeArgs v).map fun as => { Args := as }
  | some _ => .error "json: cannot unmarshal value into Go value of type wrapper.CobraLambdaEvent"

/-- The handler returned by `NewCobrLambdaHandler` (`wrapper/lambda.go`): build
a `CobraLambda` over the current globals, decode the event, and on decode
failure return `(nil, err)` without running anything; otherwise run
`ExecuteContext` with the event's argument vector. -/
def NewCobrLambdaHandler (cmd : Nat → List String → CmdBehavior) (ctx : Nat)
    (payload : Option Json) (pipeOk1 pipeOk2 : Bool) (pipeErr1 pipeErr2 : String)
    (sched : List Bool) (sys : Sys) : ExecOut :=
  let lam : CobraLambda :=
    { cmd := cmd, originalStdout := sys.stdout, originalStderr := sys.stderr, ctx := ctx }
  match UnmarshalEvent payload with
  | .error e =>
    { sys := sys, result := .ret none (some e), ran := false, buffer := [], events := [] }
  | .ok event =>
    ExecuteContext lam ctx event.Args pipeOk1 pipeOk2 pipeErr1 pipeErr2 sched sys

/-! ### The `cli` package (packed into `README.md`): `ParseArgs` and
`KillProcessGroup` of the process supervisor -/

/-- Constant `ModeBinary` of the `cli` package (`RunMode` is an integer enum). -/
def ModeBinary : Nat := 0

/-- Constant `ModeGoRun` of the `cli` package. -/
def ModeGoRun : Nat := 1

/-- Struct `CommandConfig` of the `cli` package. -/
structure CommandConfig where
  LambdaPath : String
  LambdaArgs : List String
deriving DecidableEq, Repr

/-- Model of `strings.HasSuffix(s, ".go")`. -/
def hasGoSuffix (s : String) : Bool :=
  ".go".data.isSuffixOf s.data

/-- Method `(*Runner).ParseArgs` of the `cli` package (the current variant, used by
`cmd/rpc/main.go`): an empty token list is a missing-target error; in
`ModeBinary` the first token is the executable path and the rest the forwarded
arguments; in `ModeGoRun` the first token must end in `.go`; an unknown mode
value is rejected. -/
def ParseArgs (mode : Nat) (args : List String) : Except String CommandConfig :=
  match args with
  | [] => .error "missing lambda path argument"
  | a :: rest =>
    if mode = ModeBinary then
      .ok { LambdaPath := a, LambdaArgs := rest }
    else if mode = ModeGoRun then
      if hasGoSuffix a then
        .ok { LambdaPath := a, LambdaArgs := rest }
      else
        .error ("invalid go file: " ++ a)
    else
      .error "unknown run mode"

/-- Model of `os.Process` as `KillProcessGroup` needs it: the pid of the started
subprocess. -/
structure GoProcess where
  pid : Nat
deriving DecidableEq, Repr

/-- Model of `exec.Cmd` as `KillProcessGroup` needs it: `cmd.Process` is nil until the
command was started. -/
structure ExecCmd where
  process : Option GoProcess
deriving DecidableEq, Repr

/-- Method `(*Runner).KillProcessGroup` of the `cli` package.  Here `getpgid` models the
`syscall.Getpgid` oracle and `kill` the `syscall.Kill` oracle; alongside the
returned error the model reports the list of `(target, signal)` pairs actually
passed to `syscall.Kill` (the target is the *negated* process-group id, which
addresses the whole group). -/
def KillProcessGroup (getpgid : Nat → Except String Nat)
    (kill : Int → Nat → Except String Unit) (cmd : ExecCmd) (signal : Nat) :
    Except String Unit × List (Int × Nat) :=
  match cmd.process with
  | none => (.error "process not started", [])
  | some p =>
    match getpgid p.pid with
    | .error e => (.error ("failed to get process group ID: " ++ e), [])
    | .ok pgid =>
      match kill (-(pgid : Int)) signal with
      | .error e => (.error ("failed to send signal: " ++ e), [(-(pgid : Int), signal)])
      | .ok _ => (.ok (), [(-(pgid : Int), signal)])

/-! ### `waitForServer` of `cmd/rpc/main.go`

Time is in milliseconds.  `connOk t` says whether a `net.DialTimeout` attempt
made at time `t` succeeds; `dialDur t` is how long the failed attempt at time
`t` takes (bounded by the 100ms dial timeout).  Each failed round advances the
clock by the attempt's duration plus the fixed 50ms sleep.  The result is the
returned error (`none` = success), the time at which the loop returns, and the
list of times at which connection attempts were made. -/

structure WaitOut where
  res : Option String
  fin : Nat
  attempts : List Nat
deriving DecidableEq, Repr

def waitLoop (connOk : Nat → Bool) (dialDur : Nat → Nat) (deadline : Nat)
    (now : Nat) : WaitOut :=
  if _h : now < deadline then
    if connOk now then
      { res := none, fin := now, attempts := [now] }
    else
      let r := waitLoop connOk dialDur deadline (now + (dialDur now + 50))
      { res := r.res, fin := r.fin, attempts := now :: r.attempts }
  else
    { res := some "timeout waiting for server", fin := now, attempts := [] }
termination_by deadline - now
decreasing_by omega

/-- Function `waitForServer(port, timeout)` started at clock value `start`: the deadline
is `start + timeout` and the loop polls while the clock is before it. -/
def waitForServer (connOk : Nat → Bool) (dialDur : Nat → Nat)
    (timeout : Nat) (start : Nat) : WaitOut :=
  waitLoop connOk dialDur (start + timeout) start

/-! ### The demo Lambda handler of `iac/go-demo/main.go` -/

/-- Bytes of a Go string literal. -/
def strBytes (s : String) : List Nat :=
  s.data.map Char.toNat

/-- Whether cobra treats a token as a flag. -/
def looksLikeFlag (a : String) : Bool :=
  match a.data with
  | c :: _ => c == '-'
  | [] => false

/-- The demo root command of `iac/go-demo/main.go`.  Its `Run` body prints a
greeting and the argument vector to `os.Stdout` and never fails; cobra itself
(an external collaborator, spec section 6) rejects unknown flag tokens before
`Run` with an error.  `%v` of a `[]string` renders as the tokens joined by
spaces inside brackets. -/
def rootCmdRun (_ctx : Nat) (args : List String) : CmdBehavior :=
  if args.any looksLikeFlag then
    { trace := [], outcome := .ok (some "unknown flag") }
  else
    { trace :=
        [ { src := .osStdout
            data := strBytes "Hello from cobra command handler running in AWS Lambda!\n" }
        , { src := .osStdout
            data := strBytes ("Arguments passed to me: [" ++ String.intercalate " " args ++ "]\n") } ]
      outcome := .ok none }

/-- What the demo `Handler` produces: the returned `map[string]any` with the
captured stdout and the error string (Go error value is nil on this path), the
pre-execution decode error, or a runtime panic. -/
inductive DemoResult where
  | retMap (stdout : List Nat) (errField : String)
  | retErr (e : String)
  | panicked (msg : String)
deriving DecidableEq, Repr

/-- Function `Handler` of `iac/go-demo/main.go`, statement by statement: decode the
event (decode failure returns `(nil, err)`); wrap `rootCmd` over the current
globals and `Execute` it; then build
`map[string]any{"stdout": result.Stdout, "error": err.Error()}`.
The map literal evaluates `result.Stdout` first and `err.Error()` second, so a
nil `result` (pipe-creation failure) or a nil `err` (successful command) is a
nil-pointer dereference at the corresponding step — the `TODO: implement
err != nil checks before deserializing` in the source marks the missing
guards. -/
def Handler (ctx : Nat) (payload : Option Json) (pipeOk1 pipeOk2 : Bool)
    (pipeErr1 pipeErr2 : String) (sched : List Bool) (sys : Sys) :
    Sys × DemoResult :=
  match UnmarshalEvent payload with
  | .error e => (sys, .retErr e)
  | .ok event =>
    let w := NewCobraLambdaCLI ctx rootCmdRun sys
    let out := Execute w event.Args pipeOk1 pipeOk2 pipeErr1 pipeErr2 sched sys
    match out.result with
    | .panicked => (out.sys, .panicked "panic in wrapped command")
    | .ret cap err =>
      match cap with
      | none => (out.sys, .panicked "runtime error: invalid memory address or nil pointer dereference")
      | some c =>
        match err with
        | none => (out.sys, .panicked "runtime error: invalid memory address or nil pointer dereference")
        | some e => (out.sys, .retMap c.Stdout e)

/-! ## Helper lemmas -/

/-- A fixed trivial command behavior, used to instantiate witnesses. -/
def trivialCmd : Nat → List String → CmdBehavior :=
  fun _ _ => { trace := [], outcome := .ok none }

/-- A fixed initial system state (stdout = 0, stderr = 1, fds 0 and 1 open),
used to instantiate witnesses. -/
def sys0 : Sys :=
  { stdout := 0, stderr := 1, nextFd := 2, openFds := [0, 1] }

/-- A fixed wrapper instance over `trivialCmd` and `sys0`. -/
def w0 : CobraLambda :=
  NewCobraLambdaCLI 0 trivialCmd sys0

/-- Concrete trace used by witnesses: a cobra-stream write and a raw stderr
write. -/
def trEx : List WriteEvent :=
  [ { src := .cobraOut, data := [1, 2] }, { src := .osStderr, data := [3] } ]

/-- Concrete wrapper instance over a command whose run writes `trEx` and
returns no error. -/
def wEx : CobraLambda :=
  { cmd := fun _ _ => { trace := trEx, outcome := .ok none }
    originalStdout := 0, originalStderr := 1, ctx := 0 }

/-- Concrete wrapper whose command writes `trEx` and then fails. -/
def wErr : CobraLambda :=
  { cmd := fun _ _ => { trace := trEx, outcome := .ok (some "command failed") }
    originalStdout := 0, originalStderr := 1, ctx := 0 }

theorem merge_perm (s : List Bool) (xs ys : List α) :
    List.Perm (merge s xs ys) (xs ++ ys) := by
  induction s generalizing xs ys with
  | nil => simp [merge]
  | cons b s ih =>
    cases xs with
    | nil => simp [merge]
    | cons x xs =>
      cases ys with
      | nil => simp [merge]
      | cons y ys =>
        cases b with
        | true =>
          simpa [merge] using (ih xs (y :: ys)).cons x
        | false =>
          have h1 : List.Perm (merge (false :: s) (x :: xs) (y :: ys))
              (y :: ((x :: xs) ++ ys)) := by
            simpa [merge] using (ih (x :: xs) ys).cons y
          exact h1.trans List.perm_middle.symm

theorem merge_filter_left (p : α → Bool) (s : List Bool) (xs ys : List α)
    (hxs : ∀ a ∈ xs, p a = true) (hys : ∀ a ∈ ys, p a = false) :
    (merge s xs ys).filter p = xs := by
  induction s generalizing xs ys with
  | nil =>
    simp only [merge, List.filter_append]
    rw [List.filter_eq_self.mpr hxs, List.filter_eq_nil_iff.mpr (by simpa using hys)]
    simp
  | cons b s ih =>
    cases xs with
    | nil =>
      simp only [merge]
      exact List.filter_eq_nil_iff.mpr (by simpa using hys)
    | cons x xs =>
      cases ys with
      | nil =>
        simp only [merge]
        exact List.filter_eq_self.mpr hxs
      | cons y ys =>
        cases b with
        | true =>
          have hx : p x = true := hxs x (by simp)
          simp only [merge, List.filter_cons, hx, if_pos]
          rw [ih xs (y :: ys) (fun a ha => hxs a (by simp [ha])) hys]
        | false =>
          have hy : p y = false := hys y (by simp)
          simp only [merge, List.filter_cons, hy]
          rw [ih (x :: xs) ys hxs (fun a ha => hys a (by simp [ha]))]
          simp

theorem merge_filter_right (p : α → Bool) (s : List Bool) (xs ys : List α)
    (hxs : ∀ a ∈ xs, p a = false) (hys : ∀ a ∈ ys, p a = true) :
    (merge s xs ys).filter p = ys := by
  induction s generalizing xs ys with
  | nil =>
    simp only [merge, List.filter_append]
    rw [List.filter_eq_self.mpr hys, List.filter_eq_nil_iff.mpr (by simpa using hxs)]
    simp
  | cons b s ih =>
    cases xs with
    | nil =>
      simp only [merge]
      exact List.filter_eq_self.mpr hys
    | cons x xs =>
      cases ys with
      | nil =>
        simp only [merge]
        exact List.filter_eq_nil_iff.mpr (by simpa using hxs)
      | cons y ys =>
        cases b with
        | true =>
          have hx : p x = false := hxs x (by simp)
          simp only [merge, List.filter_cons, hx]
          exact ih xs (y :: ys) (fun a ha => hxs a (by simp [ha])) hys
        | false =>
          have hy : p y = true := hys y (by simp)
          simp only [merge, List.filter_cons, hy, if_pos]
          rw [ih (x :: xs) ys hxs (fun a ha => hys a (by simp [ha]))]

theorem removeFd_cons_eq (x : Nat) (xs : List Nat) : removeFd (x :: xs) x = xs := by
  simp [removeFd]

theorem removeFd_cons_ne (x fd : Nat) (h : x ≠ fd) (xs : List Nat) :
    removeFd (x :: xs) fd = x :: removeFd xs fd := by
  simp [removeFd, h]

theorem removeFd_pair (n : Nat) (l : List Nat) :
    removeFd (removeFd (n :: (n + 1) :: l) (n + 1)) n = l := by
  rw [removeFd_cons_ne n (n + 1) (by omega), removeFd_cons_eq, removeFd_cons_eq]

theorem removeFd_quad (n : Nat) (l : List Nat) :
    removeFd (removeFd (removeFd
      (removeFd ((n + 2) :: (n + 3) :: n :: (n + 1) :: l) (n + 1)) (n + 3)) n) (n + 2) = l := by
  rw [removeFd_cons_ne (n + 2) (n + 1) (by omega), removeFd_cons_ne (n + 3) (n + 1) (by omega),
    removeFd_cons_ne n (n + 1) (by omega), removeFd_cons_eq,
    removeFd_cons_ne (n + 2) (n + 3) (by omega), removeFd_cons_eq,
    removeFd_cons_ne (n + 2) n (by omega), removeFd_cons_eq,
    removeFd_cons_eq]

/-- The normal-return path of `Execute`, fully evaluated: both pipes are
created and later closed again (the fd table returns to its pre-call state and
four descriptor numbers were consumed), the globals end restored to the stored
originals, the buffer is the drain interleaving of the trace, and the capture
is its flattening. -/
theorem Execute_ok (w : CobraLambda) (args : List String) (er1 er2 : String)
    (sched : List Bool) (sys : Sys) (tr : List WriteEvent) (e : Option String)
    (hcmd : w.cmd w.ctx args = { trace := tr, outcome := .ok e }) :
    Execute w args true true er1 er2 sched sys =
      { sys := { stdout := w.originalStdout, stderr := w.originalStderr,
                 nextFd := sys.nextFd + 2 + 2, openFds := sys.openFds }
        result := .ret (some { Stdout :=
          ((merge sched (taggedChunks .out tr) (taggedChunks .err tr)).map (·.2)).flatten }) e
        ran := true
        buffer := merge sched (taggedChunks .out tr) (taggedChunks .err tr)
        events := [.lock, .work 0, .work 1, .work 2, .work 3, .work 4, .unlock] } := by
  simp only [Execute, hcmd, closeFd]
  simp [removeFd_quad sys.nextFd sys.openFds]

theorem taggedChunks_map_snd (c : Chan) (tr : List WriteEvent) :
    (taggedChunks c tr).map (·.2) = chunksOn c tr := by
  simp [taggedChunks, List.map_map]

theorem capture_content (sched : List Bool) (tr : List WriteEvent) :
    ((merge sched (taggedChunks .out tr) (taggedChunks .err tr)).filter
        (fun x => x.1 == Chan.out)).map (·.2) = chunksOn .out tr ∧
    ((merge sched (taggedChunks .out tr) (taggedChunks .err tr)).filter
        (fun x => x.1 == Chan.err)).map (·.2) = chunksOn .err tr ∧
    List.Perm (((merge sched (taggedChunks .out tr) (taggedChunks .err tr)).map (·.2)).flatten)
      (writtenBytes tr) := by
  have hout : ∀ a ∈ taggedChunks Chan.out tr, (a.1 == Chan.out) = true := by
    intro a ha
    obtain ⟨d, -, rfl⟩ := List.mem_map.mp ha
    rfl
  have hout' : ∀ a ∈ taggedChunks Chan.err tr, (a.1 == Chan.out) = false := by
    intro a ha
    obtain ⟨d, -, rfl⟩ := List.mem_map.mp ha
    rfl
  have herr : ∀ a ∈ taggedChunks Chan.err tr, (a.1 == Chan.err) = true := by
    intro a ha
    obtain ⟨d, -, rfl⟩ := List.mem_map.mp ha
    rfl
  have herr' : ∀ a ∈ taggedChunks Chan.out tr, (a.1 == Chan.err) = false := by
    intro a ha
    obtain ⟨d, -, rfl⟩ := List.mem_map.mp ha
    rfl
  refine ⟨?_, ?_, ?_⟩
  · rw [merge_filter_left _ _ _ _ hout hout', taggedChunks_map_snd]
  · rw [merge_filter_right _ _ _ _ herr' herr, taggedChunks_map_snd]
  · have hA : List.Perm
        ((merge sched (taggedChunks .out tr) (taggedChunks .err tr)).map (·.2))
        (chunksOn .out tr ++ chunksOn .err tr) := by
      have h := (merge_perm sched (taggedChunks .out tr) (taggedChunks .err tr)).map
        (fun x : Chan × List Nat => x.2)
      simpa [taggedChunks_map_snd] using h
    have hB : List.Perm (chunksOn .out tr ++ chunksOn .err tr) (tr.map (·.data)) := by
      have hq : (tr.filter fun e => routeChan e.src == Chan.err)
          = tr.filter fun e => !(routeChan e.src == Chan.out) := by
        apply List.filter_congr
        intro e _
        cases routeChan e.src <;> rfl
      rw [chunksOn, chunksOn, hq, ← List.map_append]
      exact (List.filter_append_perm _ tr).map _
    simpa [writtenBytes] using (hA.trans hB).flatten

/-- Shape of the pipe-failure branches of `Execute`, used by several claims. -/
theorem Execute_pipe1_fail (w : CobraLambda) (args : List String) (p2 : Bool)
    (er1 er2 : String) (sched : List Bool) (sys : Sys) :
    Execute w args false p2 er1 er2 sched sys =
      { sys := sys, result := .ret none (some er1), ran := false,
        buffer := [], events := [.lock, .unlock] } := by
  simp [Execute]

theorem Execute_pipe2_fail (w : CobraLambda) (args : List String)
    (er1 er2 : String) (sched : List Bool) (sys : Sys) :
    Execute w args true false er1 er2 sched sys =
      { sys := { sys with nextFd := sys.nextFd + 2 },
        result := .ret none (some er2), ran := false,
        buffer := [], events := [.lock, .work 0, .unlock] } := by
  simp only [Execute, closeFd]
  simp [removeFd_pair sys.nextFd sys.openFds]

/-! ## Claims -/

/-- Claim C1: for every argument vector, every write trace the wrapped command
produces during the call (to cobra's configured output streams and to the
globals `os.Stdout`/`os.Stderr`) and every interleaving of the two drain
goroutines, `Execute` returns an `OutputCapture` whose text is exactly the
concatenation of the chunks in the order they reached the shared buffer;
per channel the captured chunks are exactly the written ones in order, and the
captured bytes as a whole are a permutation of the written bytes — no byte
lost, no byte duplicated.  Both drain tasks are joined (`wg.Wait()`) before
the sink is read, which is why the buffer already holds the complete trace. -/
theorem execute_captures_exactly (w : CobraLambda) (args : List String)
    (er1 er2 : String) (sched : List Bool) (sys : Sys) (tr : List WriteEvent)
    (e : Option String)
    (hcmd : w.cmd w.ctx args = { trace := tr, outcome := .ok e }) :
    ∃ cap : OutputCapture,
      (Execute w args true true er1 er2 sched sys).result = .ret (some cap) e ∧
      cap.Stdout = ((Execute w args true true er1 er2 sched sys).buffer.map (·.2)).flatten ∧
      (((Execute w args true true er1 er2 sched sys).buffer.filter
          (fun x => x.1 == Chan.out)).map (·.2)).flatten = bytesOn .out tr ∧
      (((Execute w args true true er1 er2 sched sys).buffer.filter
          (fun x => x.1 == Chan.err)).map (·.2)).flatten = bytesOn .err tr ∧
      List.Perm cap.Stdout (writtenBytes tr) := by
  rw [Execute_ok w args er1 er2 sched sys tr e hcmd]
  obtain ⟨h1, h2, h3⟩ := capture_content sched tr
  refine ⟨_, rfl, rfl, ?_, ?_, h3⟩
  · show (((merge sched (taggedChunks .out tr) (taggedChunks .err tr)).filter
        (fun x => x.1 == Chan.out)).map (·.2)).flatten = bytesOn .out tr
    rw [h1, bytesOn]
  · show (((merge sched (taggedChunks .out tr) (taggedChunks .err tr)).filter
        (fun x => x.1 == Chan.err)).map (·.2)).flatten = bytesOn .err tr
    rw [h2, bytesOn]

/-- Witness for C1 at a concrete command, trace and drain schedule. -/
theorem execute_captures_exactly_witness :
    ∃ cap : OutputCapture,
      (Execute wEx ["a"] true true "e1" "e2" [false, true] sys0).result = .ret (some cap) none ∧
      cap.Stdout = ((Execute wEx ["a"] true true "e1" "e2" [false, true] sys0).buffer.map (·.2)).flatten ∧
      (((Execute wEx ["a"] true true "e1" "e2" [false, true] sys0).buffer.filter
          (fun x => x.1 == Chan.out)).map (·.2)).flatten = bytesOn .out trEx ∧
      (((Execute wEx ["a"] true true "e1" "e2" [false, true] sys0).buffer.filter
          (fun x => x.1 == Chan.err)).map (·.2)).flatten = bytesOn .err trEx ∧
      List.Perm cap.Stdout (writtenBytes trEx) :=
  execute_captures_exactly wEx ["a"] "e1" "e2" [false, true] sys0 trEx none rfl

/-- Claim C2: whatever happens inside the call — a normal return, a returned command
error, or a panic unwinding out of the command (and likewise on the
pipe-failure paths, where the globals were never touched) — when `Execute`
exits, `os.Stdout` and `os.Stderr` equal their values immediately before the
call.  The hypothesis states that the wrapper's stored originals are those
pre-call values, which is how every constructor in the repository builds the
wrapper; the restoration is the deferred function registered before the swap,
so it also runs on the panic path. -/
theorem execute_restores_streams (w : CobraLambda) (args : List String)
    (p1 p2 : Bool) (er1 er2 : String) (sched : List Bool) (sys : Sys)
    (h1 : sys.stdout = w.originalStdout) (h2 : sys.stderr = w.originalStderr) :
    (Execute w args p1 p2 er1 er2 sched sys).sys.stdout = sys.stdout ∧
    (Execute w args p1 p2 er1 er2 sched sys).sys.stderr = sys.stderr := by
  cases p1 with
  | false => rw [Execute_pipe1_fail]; exact ⟨rfl, rfl⟩
  | true =>
    cases p2 with
    | false => rw [Execute_pipe2_fail]; exact ⟨rfl, rfl⟩
    | true =>
      cases hb : (w.cmd w.ctx args).outcome with
      | panicked =>
        simp only [Execute, closeFd, hb]
        simp [h1, h2]
      | ok e =>
        simp only [Execute, closeFd, hb]
        simp [h1, h2]

/-- Witness for C2: a command that panics, run from a state matching the
stored originals; the globals come back unchanged. -/
theorem execute_restores_streams_witness :
    (Execute { cmd := fun _ _ => { trace := trEx, outcome := .panicked }
               originalStdout := 0, originalStderr := 1, ctx := 0 }
        [] true true "e1" "e2" [] sys0).sys.stdout = sys0.stdout ∧
    (Execute { cmd := fun _ _ => { trace := trEx, outcome := .panicked }
               originalStdout := 0, originalStderr := 1, ctx := 0 }
        [] true true "e1" "e2" [] sys0).sys.stderr = sys0.stderr :=
  execute_restores_streams _ [] true true "e1" "e2" [] sys0 rfl rfl

/-- Claim C3: when the wrapped command's run writes output and then returns an
error, `Execute` returns exactly that error together with a non-nil
`OutputCapture` holding everything written before the failure point (a
permutation-exact capture of the written bytes, per channel in order). -/
theorem execute_returns_error_with_output (w : CobraLambda) (args : List String)
    (er1 er2 : String) (sched : List Bool) (sys : Sys) (tr : List WriteEvent)
    (msg : String)
    (hcmd : w.cmd w.ctx args = { trace := tr, outcome := .ok (some msg) }) :
    ∃ cap : OutputCapture,
      (Execute w args true true er1 er2 sched sys).result = .ret (some cap) (some msg) ∧
      List.Perm cap.Stdout (writtenBytes tr) ∧
      (((Execute w args true true er1 er2 sched sys).buffer.filter
          (fun x => x.1 == Chan.out)).map (·.2)).flatten = bytesOn .out tr ∧
      (((Execute w args true true er1 er2 sched sys).buffer.filter
          (fun x => x.1 == Chan.err)).map (·.2)).flatten = bytesOn .err tr := by
  rw [Execute_ok w args er1 er2 sched sys tr (some msg) hcmd]
  obtain ⟨h1, h2, h3⟩ := capture_content sched tr
  refine ⟨_, rfl, h3, ?_, ?_⟩
  · show (((merge sched (taggedChunks .out tr) (taggedChunks .err tr)).filter
        (fun x => x.1 == Chan.out)).map (·.2)).flatten = bytesOn .out tr
    rw [h1, bytesOn]
  · show (((merge sched (taggedChunks .out tr) (taggedChunks .err tr)).filter
        (fun x => x.1 == Chan.err)).map (·.2)).flatten = bytesOn .err tr
    rw [h2, bytesOn]

/-- Witness for C3 at a concrete erroring command. -/
theorem execute_returns_error_with_output_witness :
    ∃ cap : OutputCapture,
      (Execute wErr [] true true "e1" "e2" [] sys0).result = .ret (some cap) (some "command failed") ∧
      List.Perm cap.Stdout (writtenBytes trEx) ∧
      (((Execute wErr [] true true "e1" "e2" [] sys0).buffer.filter
          (fun x => x.1 == Chan.out)).map (·.2)).flatten = bytesOn .out trEx ∧
      (((Execute wErr [] true true "e1" "e2" [] sys0).buffer.filter
          (fun x => x.1 == Chan.err)).map (·.2)).flatten = bytesOn .err trEx :=
  execute_returns_error_with_output wErr [] "e1" "e2" [] sys0 trEx "command failed" rfl

/-- Claim C5: if creating the stdout pipe fails, `Execute` returns that error with a
nil capture, the command is not run, and the system state (globals and fd
table) is exactly the pre-call one; if the stdout pipe succeeds and the stderr
pipe fails, both ends of the already-created stdout pipe are closed (the fd
table returns to its pre-call value; only the fd counter advanced), the
globals are untouched, the command is not run, and that error is returned with
a nil capture. -/
theorem execute_pipe_failure_aborts (w : CobraLambda) (args : List String)
    (er1 er2 : String) (sched : List Bool) (sys : Sys) :
    (∀ p2, Execute w args false p2 er1 er2 sched sys =
      { sys := sys, result := .ret none (some er1), ran := false,
        buffer := [], events := [.lock, .unlock] }) ∧
    Execute w args true false er1 er2 sched sys =
      { sys := { sys with nextFd := sys.nextFd + 2 },
        result := .ret none (some er2), ran := false,
        buffer := [], events := [.lock, .work 0, .unlock] } :=
  ⟨fun p2 => Execute_pipe1_fail w args p2 er1 er2 sched sys,
   Execute_pipe2_fail w args er1 er2 sched sys⟩

/-! ### Mutex serialization lemmas -/

theorem sched_nil_left {o : Option Bool} {xs ys : List Ev} {zs : List (Bool × Ev)}
    (h : Sched o xs ys zs) (hx : xs = []) : zs = ys.map (fun e => (false, e)) := by
  induction h with
  | done => rfl
  | left hs _ ih => exact absurd hx (by simp)
  | right hs _ ih => simp [ih hx]

theorem sched_nil_right {o : Option Bool} {xs ys : List Ev} {zs : List (Bool × Ev)}
    (h : Sched o xs ys zs) (hy : ys = []) : zs = xs.map (fun e => (true, e)) := by
  induction h with
  | done => rfl
  | left hs _ ih => simp [ih hy]
  | right hs _ ih => exact absurd hy (by simp)

/-- While thread `true` holds the mutex with only work events left before its
unlock, and thread `false` is at its `Lock()`, thread `false` cannot step: the
schedule is forced to finish thread `true` first. -/
theorem sched_locked_left {o : Option Bool} {xs ys : List Ev} {zs : List (Bool × Ev)}
    (h : Sched o xs ys zs) :
    ∀ ws ys', o = some true → xs = ws ++ [Ev.unlock] → (∀ e ∈ ws, isWork e = true) →
      ys = Ev.lock :: ys' →
      zs = xs.map (fun e => (true, e)) ++ ys.map (fun e => (false, e)) := by
  induction h with
  | done =>
    intro ws ys' ho hx hws hy
    exact absurd hx (by simp)
  | @left o o' e xs ys zs hs _ ih =>
    intro ws ys' ho hx hws hy
    subst ho
    cases ws with
    | nil =>
      simp only [List.nil_append, List.cons.injEq] at hx
      obtain ⟨he, hxs⟩ := hx
      subst he
      subst hxs
      cases hs
      rename_i hrest
      rw [sched_nil_left hrest rfl, hy]
      simp
    | cons v ws =>
      simp only [List.cons_append, List.cons.injEq] at hx
      obtain ⟨he, hxs⟩ := hx
      have hv : isWork e = true := by rw [he]; exact hws v (by simp)
      cases e with
      | lock => simp [isWork] at hv
      | unlock => simp [isWork] at hv
      | work n =>
        cases hs
        rw [ih ws ys' rfl hxs (fun a ha => hws a (by simp [ha])) hy, hxs]
        simp
  | @right o o' e xs ys zs hs _ ih =>
    intro ws ys' ho hx hws hy
    subst ho
    injection hy with hy1 hy2
    subst hy1
    cases hs

/-- Mirror image of `sched_locked_left`. -/
theorem sched_locked_right {o : Option Bool} {xs ys : List Ev} {zs : List (Bool × Ev)}
    (h : Sched o xs ys zs) :
    ∀ ws xs', o = some false → ys = ws ++ [Ev.unlock] → (∀ e ∈ ws, isWork e = true) →
      xs = Ev.lock :: xs' →
      zs = ys.map (fun e => (false, e)) ++ xs.map (fun e => (true, e)) := by
  induction h with
  | done =>
    intro ws xs' ho hy hws hx
    exact absurd hy (by simp)
  | @left o o' e xs ys zs hs _ ih =>
    intro ws xs' ho hy hws hx
    subst ho
    injection hx with hx1 hx2
    subst hx1
    cases hs
  | @right o o' e xs ys zs hs _ ih =>
    intro ws xs' ho hy hws hx
    subst ho
    cases ws with
    | nil =>
      simp only [List.nil_append, List.cons.injEq] at hy
      obtain ⟨he, hys⟩ := hy
      subst he
      subst hys
      cases hs
      rename_i hrest
      rw [sched_nil_right hrest rfl, hx]
      simp
    | cons v ws =>
      simp only [List.cons_append, List.cons.injEq] at hy
      obtain ⟨he, hys⟩ := hy
      have hv : isWork e = true := by rw [he]; exact hws v (by simp)
      cases e with
      | lock => simp [isWork] at hv
      | unlock => simp [isWork] at hv
      | work n =>
        cases hs
        rw [ih ws xs' rfl hys (fun a ha => hws a (by simp [ha])) hx, hys]
        simp

/-- Two lock-bracketed critical sections scheduled on one mutex serialize:
the observed schedule is one section in full followed by the other. -/
theorem sched_serial {xs ys : List Ev} {zs : List (Bool × Ev)} {mx my : List Ev}
    (hx : xs = Ev.lock :: mx ++ [Ev.unlock]) (hmx : ∀ e ∈ mx, isWork e = true)
    (hy : ys = Ev.lock :: my ++ [Ev.unlock]) (hmy : ∀ e ∈ my, isWork e = true)
    (h : Sched none xs ys zs) :
    zs = xs.map (fun e => (true, e)) ++ ys.map (fun e => (false, e)) ∨
    zs = ys.map (fun e => (false, e)) ++ xs.map (fun e => (true, e)) := by
  rw [hx, hy] at h
  cases h with
  | left hs hrest =>
    cases hs
    left
    rw [hx, hy]
    have := sched_locked_left hrest mx (my ++ [Ev.unlock]) rfl rfl hmx rfl
    rw [this]
    simp
  | right hs hrest =>
    cases hs
    right
    rw [hx, hy]
    have := sched_locked_right hrest my (mx ++ [Ev.unlock]) rfl rfl hmy rfl
    rw [this]
    simp

/-- Every path of `Execute` — both pipe-failure paths, the panic path and the
normal path — emits exactly one `Lock()` at entry and exactly one `Unlock()`
(the deferred one) at exit, with only non-mutex shared-state events between
them. -/
theorem execute_events_shape (w : CobraLambda) (args : List String)
    (p1 p2 : Bool) (er1 er2 : String) (sched : List Bool) (sys : Sys) :
    ∃ mid, (Execute w args p1 p2 er1 er2 sched sys).events = .lock :: mid ++ [.unlock] ∧
      ∀ e ∈ mid, isWork e = true := by
  cases p1 with
  | false =>
    rw [Execute_pipe1_fail]
    exact ⟨[], rfl, by simp⟩
  | true =>
    cases p2 with
    | false =>
      rw [Execute_pipe2_fail]
      exact ⟨[.work 0], rfl, by simp [isWork]⟩
    | true =>
      cases hb : (w.cmd w.ctx args).outcome with
      | panicked =>
        refine ⟨[.work 0, .work 1, .work 2], ?_, by simp [isWork]⟩
        simp only [Execute, hb]
        simp
      | ok e =>
        refine ⟨[.work 0, .work 1, .work 2, .work 3, .work 4], ?_, by simp [isWork]⟩
        simp only [Execute, hb]
        simp

/-- Claim C4: on every exit path, `Execute` takes the instance mutex before touching
any shared state and releases it (via the deferred unlock) at exit — its event
trace is a single lock-bracketed critical section — and consequently any two
`Execute` calls on the same instance, interleaved under the mutex semantics,
serialize completely: one call's capture window finishes before the other's
begins. -/
theorem execute_mutex_serializes (w1 w2 : CobraLambda) (args1 args2 : List String)
    (p11 p12 p21 p22 : Bool) (e11 e12 e21 e22 : String) (s1 s2 : List Bool)
    (sys1 sys2 : Sys) :
    (∃ mid, (Execute w1 args1 p11 p12 e11 e12 s1 sys1).events = .lock :: mid ++ [.unlock] ∧
        ∀ e ∈ mid, isWork e = true) ∧
    ∀ zs, Sched none (Execute w1 args1 p11 p12 e11 e12 s1 sys1).events
        (Execute w2 args2 p21 p22 e21 e22 s2 sys2).events zs →
      zs = (Execute w1 args1 p11 p12 e11 e12 s1 sys1).events.map (fun e => (true, e)) ++
             (Execute w2 args2 p21 p22 e21 e22 s2 sys2).events.map (fun e => (false, e)) ∨
      zs = (Execute w2 args2 p21 p22 e21 e22 s2 sys2).events.map (fun e => (false, e)) ++
             (Execute w1 args1 p11 p12 e11 e12 s1 sys1).events.map (fun e => (true, e)) := by
  refine ⟨execute_events_shape w1 args1 p11 p12 e11 e12 s1 sys1, ?_⟩
  intro zs hz
  obtain ⟨m1, he1, hw1⟩ := execute_events_shape w1 args1 p11 p12 e11 e12 s1 sys1
  obtain ⟨m2, he2, hw2⟩ := execute_events_shape w2 args2 p21 p22 e21 e22 s2 sys2
  exact sched_serial he1 hw1 he2 hw2 hz

/-- Witness for C4: two concrete calls (both on the fast pipe-failure path, so
their traces are `[lock, unlock]`) under the sequential schedule; the theorem
pins the observed schedule to one of the two serializations. -/
theorem execute_mutex_serializes_witness :
    [(true, Ev.lock), (true, Ev.unlock), (false, Ev.lock), (false, Ev.unlock)] =
        (Execute w0 [] false false "e1" "e2" [] sys0).events.map (fun e => (true, e)) ++
          (Execute w0 [] false false "e1" "e2" [] sys0).events.map (fun e => (false, e)) ∨
    [(true, Ev.lock), (true, Ev.unlock), (false, Ev.lock), (false, Ev.unlock)] =
        (Execute w0 [] false false "e1" "e2" [] sys0).events.map (fun e => (false, e)) ++
          (Execute w0 [] false false "e1" "e2" [] sys0).events.map (fun e => (true, e)) :=
  (execute_mutex_serializes w0 w0 [] [] false false false false "e1" "e2" "e1" "e2" [] []
      sys0 sys0).2
    [(true, Ev.lock), (true, Ev.unlock), (false, Ev.lock), (false, Ev.unlock)]
    (Sched.left MuStep.lock (Sched.left MuStep.unlock
      (Sched.right MuStep.lock (Sched.right MuStep.unlock Sched.done))))

/-- Claim C6: for every payload that does not decode into the `{"args": [...]}`
envelope, the handler returned by `NewCobrLambdaHandler` returns a nil result
together with that non-nil error, the wrapped command is never executed, and
the system state is untouched — the failure is surfaced before any
execution. -/
theorem handler_rejects_malformed_event (cmd : Nat → List String → CmdBehavior)
    (ctx : Nat) (payload : Option Json) (p1 p2 : Bool) (er1 er2 : String)
    (sched : List Bool) (sys : Sys) (e : String)
    (h : UnmarshalEvent payload = .error e) :
    NewCobrLambdaHandler cmd ctx payload p1 p2 er1 er2 sched sys =
      { sys := sys, result := .ret none (some e), ran := false,
        buffer := [], events := [] } := by
  simp [NewCobrLambdaHandler, h]

/-- Witness for C6: a payload whose top-level JSON value is a number cannot be
decoded into the envelope; the handler rejects it without running anything. -/
theorem handler_rejects_malformed_event_witness :
    NewCobrLambdaHandler trivialCmd 0 (some (.num 3)) true true "e1" "e2" [] sys0 =
      { sys := sys0
        result := .ret none
          (some "json: cannot unmarshal value into Go value of type wrapper.CobraLambdaEvent")
        ran := false, buffer := [], events := [] } :=
  handler_rejects_malformed_event trivialCmd 0 (some (.num 3)) true true "e1" "e2" [] sys0 _ rfl

/-- Claim C8: `KillProcessGroup` signals the negated process-group id — addressing
the whole group, never the single pid — and returns an error without
signalling anything when the process was never started or its group id cannot
be obtained. -/
theorem killProcessGroup_signals_group (getpgid : Nat → Except String Nat)
    (kill : Int → Nat → Except String Unit) (cmd : ExecCmd) (sig : Nat) :
    (cmd.process = none →
      KillProcessGroup getpgid kill cmd sig = (.error "process not started", [])) ∧
    (∀ p e, cmd.process = some p → getpgid p.pid = .error e →
      KillProcessGroup getpgid kill cmd sig =
        (.error ("failed to get process group ID: " ++ e), [])) ∧
    (∀ p pgid, cmd.process = some p → getpgid p.pid = .ok pgid →
      (KillProcessGroup getpgid kill cmd sig).2 = [(-(pgid : Int), sig)] ∧
      (0 < pgid → ∀ q ∈ (KillProcessGroup getpgid kill cmd sig).2, q.1 < 0 ∧ q.1 ≠ (p.pid : Int))) := by
  refine ⟨?_, ?_, ?_⟩
  · intro h
    simp [KillProcessGroup, h]
  · intro p e hp hg
    simp [KillProcessGroup, hp, hg]
  · intro p pgid hp hg
    have hsent : (KillProcessGroup getpgid kill cmd sig).2 = [(-(pgid : Int), sig)] := by
      simp only [KillProcessGroup, hp, hg]
      cases kill (-(pgid : Int)) sig <;> rfl
    refine ⟨hsent, ?_⟩
    intro hpos q hq
    rw [hsent] at hq
    simp only [List.mem_singleton] at hq
    subst hq
    constructor
    · simp
      omega
    · have : (-(pgid : Int)) < 0 := by omega
      omega

/-- Witness for C8: all three clauses at concrete oracles — an unstarted
command, a command whose group id cannot be read, and a started command with
group id 5 (signalled as −5, not as its pid 7). -/
theorem killProcessGroup_signals_group_witness :
    KillProcessGroup (fun _ => .ok 5) (fun _ _ => .ok ()) { process := none } 9 =
        (.error "process not started", []) ∧
    KillProcessGroup (fun _ => .error "no such process") (fun _ _ => .ok ())
        { process := some { pid := 7 } } 9 =
      (.error ("failed to get process group ID: " ++ "no such process"), []) ∧
    (KillProcessGroup (fun _ => .ok 5) (fun _ _ => .ok ())
        { process := some { pid := 7 } } 9).2 = [(-(5 : Int), 9)] :=
  ⟨(killProcessGroup_signals_group (fun _ => .ok 5) (fun _ _ => .ok ())
      { process := none } 9).1 rfl,
   (killProcessGroup_signals_group (fun _ => .error "no such process") (fun _ _ => .ok ())
      { process := some { pid := 7 } } 9).2.1 { pid := 7 } "no such process" rfl rfl,
   ((killProcessGroup_signals_group (fun _ => .ok 5) (fun _ _ => .ok ())
      { process := some { pid := 7 } } 9).2.2 { pid := 7 } 5 rfl rfl).1⟩

/-- Claim C9: `ParseArgs` with an empty token list fails with the missing-target
error in every mode; in `ModeBinary` the first token becomes the executable
path and the remaining tokens the forwarded arguments; in `ModeGoRun` the
first token is accepted (as path, with the rest forwarded) exactly when it
looks like Go source (ends in `.go`) and rejected otherwise. -/
theorem parseArgs_spec (args : List String) :
    (∀ mode, args = [] → ParseArgs mode args = .error "missing lambda path argument") ∧
    (∀ a rest, args = a :: rest →
      ParseArgs ModeBinary args = .ok { LambdaPath := a, LambdaArgs := rest }) ∧
    (∀ a rest, args = a :: rest →
      (hasGoSuffix a = true →
        ParseArgs ModeGoRun args = .ok { LambdaPath := a, LambdaArgs := rest }) ∧
      (hasGoSuffix a = false →
        ParseArgs ModeGoRun args = .error ("invalid go file: " ++ a))) := by
  refine ⟨?_, ?_, ?_⟩
  · intro mode h
    subst h
    rfl
  · intro a rest h
    subst h
    rfl
  · intro a rest h
    subst h
    constructor
    · intro hgo
      simp [ParseArgs, ModeBinary, ModeGoRun, hgo]
    · intro hgo
      simp [ParseArgs, ModeBinary, ModeGoRun, hgo]

/-- Witness for C9: the empty vector is rejected; `["./lambda-binary", "x"]`
parses in binary mode; `["main.go", "x"]` parses in go-run mode while
`["lambda-binary"]` is rejected there. -/
theorem parseArgs_spec_witness :
    ParseArgs ModeBinary [] = .error "missing lambda path argument" ∧
    ParseArgs ModeBinary ["./lambda-binary", "x"] =
      .ok { LambdaPath := "./lambda-binary", LambdaArgs := ["x"] } ∧
    ParseArgs ModeGoRun ["main.go", "x"] =
      .ok { LambdaPath := "main.go", LambdaArgs := ["x"] } ∧
    ParseArgs ModeGoRun ["lambda-binary"] =
      .error ("invalid go file: " ++ "lambda-binary") :=
  ⟨(parseArgs_spec []).1 ModeBinary rfl,
   (parseArgs_spec ["./lambda-binary", "x"]).2.1 "./lambda-binary" ["x"] rfl,
   ((parseArgs_spec ["main.go", "x"]).2.2 "main.go" ["x"] rfl).1 (by decide),
   ((parseArgs_spec ["lambda-binary"]).2.2 "lambda-binary" [] rfl).2 (by decide)⟩

/-! ### `waitForServer` lemmas -/

theorem waitLoop_stop (connOk : Nat → Bool) (dialDur : Nat → Nat) (deadline now : Nat)
    (h : ¬ now < deadline) :
    waitLoop connOk dialDur deadline now =
      { res := some "timeout waiting for server", fin := now, attempts := [] } := by
  unfold waitLoop
  simp [h]

theorem waitLoop_hit (connOk : Nat → Bool) (dialDur : Nat → Nat) (deadline now : Nat)
    (h : now < deadline) (hc : connOk now = true) :
    waitLoop connOk dialDur deadline now = { res := none, fin := now, attempts := [now] } := by
  unfold waitLoop
  simp [h, hc]

theorem waitLoop_miss (connOk : Nat → Bool) (dialDur : Nat → Nat) (deadline now : Nat)
    (h : now < deadline) (hc : connOk now = false) :
    waitLoop connOk dialDur deadline now =
      { res := (waitLoop connOk dialDur deadline (now + (dialDur now + 50))).res
        fin := (waitLoop connOk dialDur deadline (now + (dialDur now + 50))).fin
        attempts := now :: (waitLoop connOk dialDur deadline (now + (dialDur now + 50))).attempts } := by
  conv_lhs => unfold waitLoop
  simp [h, hc]

/-- Full characterization of the polling loop, by induction on the remaining
time: success exactly when some attempt connects (and only the last attempt
can be the connecting one), otherwise the timeout error once the clock is past
the deadline; attempts are spaced at least the 50ms interval apart; and with
dial attempts bounded by their 100ms timeout the loop returns within one round
of the deadline. -/
theorem waitLoop_spec (connOk : Nat → Bool) (dialDur : Nat → Nat) (deadline : Nat)
    (now : Nat) :
    ((waitLoop connOk dialDur deadline now).res = none ↔
      ∃ t ∈ (waitLoop connOk dialDur deadline now).attempts, connOk t = true) ∧
    (∀ t ∈ (waitLoop connOk dialDur deadline now).attempts.dropLast, connOk t = false) ∧
    ((waitLoop connOk dialDur deadline now).res = none ∨
      (waitLoop connOk dialDur deadline now).res = some "timeout waiting for server") ∧
    ((waitLoop connOk dialDur deadline now).res ≠ none →
      deadline ≤ (waitLoop connOk dialDur deadline now).fin) ∧
    List.Chain' (fun a b => a + 50 ≤ b) (waitLoop connOk dialDur deadline now).attempts ∧
    (∀ t ∈ (waitLoop connOk dialDur deadline now).attempts, now ≤ t ∧ t < deadline) ∧
    (now < deadline → (waitLoop connOk dialDur deadline now).attempts ≠ []) ∧
    now ≤ (waitLoop connOk dialDur deadline now).fin ∧
    ((∀ t, dialDur t ≤ 100) →
      (waitLoop connOk dialDur deadline now).fin ≤ max now (deadline + 149)) := by
  suffices H : ∀ k now, deadline - now ≤ k →
      ((waitLoop connOk dialDur deadline now).res = none ↔
        ∃ t ∈ (waitLoop connOk dialDur deadline now).attempts, connOk t = true) ∧
      (∀ t ∈ (waitLoop connOk dialDur deadline now).attempts.dropLast, connOk t = false) ∧
      ((waitLoop connOk dialDur deadline now).res = none ∨
        (waitLoop connOk dialDur deadline now).res = some "timeout waiting for server") ∧
      ((waitLoop connOk dialDur deadline now).res ≠ none →
        deadline ≤ (waitLoop connOk dialDur deadline now).fin) ∧
      List.Chain' (fun a b => a + 50 ≤ b) (waitLoop connOk dialDur deadline now).attempts ∧
      (∀ t ∈ (waitLoop connOk dialDur deadline now).attempts, now ≤ t ∧ t < deadline) ∧
      (now < deadline → (waitLoop connOk dialDur deadline now).attempts ≠ []) ∧
      now ≤ (waitLoop connOk dialDur deadline now).fin ∧
      ((∀ t, dialDur t ≤ 100) →
        (waitLoop connOk dialDur deadline now).fin ≤ max now (deadline + 149)) by
    exact H (deadline - now) now le_rfl
  intro k
  induction k with
  | zero =>
    intro now hk
    have h : ¬ now < deadline := by omega
    rw [waitLoop_stop connOk dialDur deadline now h]
    refine ⟨by simp, by simp, by simp, fun _ => by simp; omega, by simp, by simp,
      fun hlt => absurd hlt h, le_rfl, fun _ => le_max_left _ _⟩
  | succ k ih =>
    intro now hk
    by_cases h : now < deadline
    · cases hc : connOk now with
      | true =>
        rw [waitLoop_hit connOk dialDur deadline now h hc]
        refine ⟨?_, by simp, by simp, fun hne => absurd rfl hne, by simp, ?_, by simp,
          le_rfl, fun _ => le_max_left _ _⟩
        · exact ⟨fun _ => ⟨now, by simp, hc⟩, fun _ => rfl⟩
        · intro t ht
          simp only [List.mem_singleton] at ht
          subst ht
          exact ⟨le_rfl, h⟩
      | false =>
        have hrec := ih (now + (dialDur now + 50)) (by omega)
        obtain ⟨i1, i2, i3, i4, i5, i6, i7, i8, i9⟩ := hrec
        rw [waitLoop_miss connOk dialDur deadline now h hc]
        refine ⟨?_, ?_, i3, i4, ?_, ?_, by simp, by simp; omega, ?_⟩
        · simp only
          constructor
          · intro hnone
            obtain ⟨t, ht, hct⟩ := i1.mp hnone
            exact ⟨t, by simp [ht], hct⟩
          · rintro ⟨t, ht, hct⟩
            rcases List.mem_cons.mp ht with rfl | ht'
            · rw [hc] at hct
              cases hct
            · exact i1.mpr ⟨t, ht', hct⟩
        · simp only
          intro t ht
          cases hta : (waitLoop connOk dialDur deadline (now + (dialDur now + 50))).attempts with
          | nil =>
            rw [hta] at ht
            simp at ht
          | cons u us =>
            rw [hta, List.dropLast_cons₂] at ht
            rcases List.mem_cons.mp ht with rfl | ht'
            · exact hc
            · exact i2 t (by rw [hta]; exact ht')
        · simp only
          refine List.chain'_cons'.mpr ⟨?_, i5⟩
          intro y hy
          have hmem := List.mem_of_mem_head? hy
          have := (i6 y hmem).1
          omega
        · simp only
          intro t ht
          rcases List.mem_cons.mp ht with rfl | ht'
          · exact ⟨le_rfl, h⟩
          · have := i6 t ht'
            exact ⟨by omega, this.2⟩
        · intro hd
          have h9 := i9 hd
          have hdn := hd now
          simp only
          omega
    · rw [waitLoop_stop connOk dialDur deadline now h]
      refine ⟨by simp, by simp, by simp, fun _ => by simp; omega, by simp, by simp,
        fun hlt => absurd hlt h, le_rfl, fun _ => le_max_left _ _⟩

/-- Claim C7: `waitForServer` terminates on every input: it returns nil exactly when
one of its polled connection attempts succeeds (and it stops at the first such
attempt — every attempt before the last fails); otherwise it returns the
timeout error, and only once the configured overall timeout has elapsed —
neither immediately (with a positive timeout the port is polled at least once,
and the loop only gives up past the deadline) nor indefinitely (with each dial
attempt bounded by its 100ms timeout, the loop returns within one 150ms round
past the deadline); consecutive attempts are spaced at least the fixed 50ms
polling interval apart, so it never busy-spins faster than that interval. -/
theorem waitForServer_terminates (connOk : Nat → Bool) (dialDur : Nat → Nat)
    (timeout start : Nat) :
    ((waitForServer connOk dialDur timeout start).res = none ↔
      ∃ t ∈ (waitForServer connOk dialDur timeout start).attempts, connOk t = true) ∧
    (∀ t ∈ (waitForServer connOk dialDur timeout start).attempts.dropLast, connOk t = false) ∧
    ((waitForServer connOk dialDur timeout start).res = none ∨
      (waitForServer connOk dialDur timeout start).res = some "timeout waiting for server") ∧
    ((waitForServer connOk dialDur timeout start).res ≠ none →
      start + timeout ≤ (waitForServer connOk dialDur timeout start).fin) ∧
    List.Chain' (fun a b => a + 50 ≤ b) (waitForServer connOk dialDur timeout start).attempts ∧
    (0 < timeout → (waitForServer connOk dialDur timeout start).attempts ≠ []) ∧
    ((∀ t, dialDur t ≤ 100) →
      (waitForServer connOk dialDur timeout start).fin ≤ start + timeout + 149) := by
  unfold waitForServer
  obtain ⟨i1, i2, i3, i4, i5, i6, i7, i8, i9⟩ :=
    waitLoop_spec connOk dialDur (start + timeout) start
  exact ⟨i1, i2, i3, i4, i5, fun ht => i7 (by omega),
    fun hd => by have := i9 hd; omega⟩

/-- Witness for C7: with nothing listening (`connOk` constantly false) and
instant dial failures, a 60ms timeout produces the timeout error, a final
clock at or past the deadline and within the bound, after at least one poll. -/
theorem waitForServer_terminates_witness :
    (waitForServer (fun _ => false) (fun _ => 0) 60 0).res = some "timeout waiting for server" ∧
    0 + 60 ≤ (waitForServer (fun _ => false) (fun _ => 0) 60 0).fin ∧
    (waitForServer (fun _ => false) (fun _ => 0) 60 0).attempts ≠ [] ∧
    (waitForServer (fun _ => false) (fun _ => 0) 60 0).fin ≤ 0 + 60 + 149 := by
  have h := waitForServer_terminates (fun _ => false) (fun _ => 0) 60 0
  have hres : (waitForServer (fun _ => false) (fun _ => 0) 60 0).res =
      some "timeout waiting for server" := by
    rcases h.2.2.1 with h1 | h1
    · obtain ⟨t, -, hct⟩ := h.1.mp h1
      simp at hct
    · exact h1
  refine ⟨hres, h.2.2.2.1 (by rw [hres]; simp), h.2.2.2.2.2.1 (by omega),
    h.2.2.2.2.2.2 (fun t => by simp)⟩

/-- Claim C10 (code bug): the demo `Handler` of `iac/go-demo/main.go` evaluates
`err.Error()` without a nil check (the `TODO` in the source marks the missing
guard), so the well-formed event `{"args": []}` — on which the wrapped root
command succeeds with a nil error — makes the handler fault with a nil-pointer
dereference instead of returning the result map. -/
theorem demo_handler_faults_on_success :
    (Handler 0 (some (.obj [("args", Json.arr [])])) true true "e1" "e2" [] sys0).2 =
      .panicked "runtime error: invalid memory address or nil pointer dereference" := by
  rfl

end CobraLambdaModel
